import Mathlib

/-!
Verification of the Transformer data pipeline (`src/dataset.py`) and the
encoder stack (`src/encoder.py`).  Python functions are shallowly embedded
as Lean definitions over lists; machine integers are modelled as `Nat`
(token ids are non-negative and small, no overflow is possible in the
source paths modelled here) and rationals stand in for the real-valued
tensor entries of the encoder.
-/

namespace TransformerPipeline

/-! ## Data model: corpus records (dataset.py)

A corpus record carries a source-language (`en`) and a target-language
(`de`) string; it occurs either with flat keys or nested under a
`translation` key (`TranslationDataset.__getitem__`, dataset.py lines
21-28). -/

/-- A bilingual corpus record: the `en` and `de` strings. -/
structure Record where
  en : String
  de : String
deriving DecidableEq, Repr

/-- A record as stored in the corpus: flat keys, or nested under a
single `translation` key (dataset.py lines 23-28). -/
inductive CorpusItem where
  | flat (r : Record)
  | nested (r : Record)
deriving DecidableEq, Repr

/-- String extraction of `TranslationDataset.__getitem__` lines 23-28:
`item['translation'][key]` when the record is nested, `item[key]`
otherwise. -/
def extractTexts (item : CorpusItem) : String × String :=
  match item with
  | .flat r => (r.en, r.de)
  | .nested r => (r.en, r.de)

/-! ## Tokenizer adapter

The tokenizer is an external artifact (`en-de-tokenizer.json`), opaque to
this development: we model its raw encoding as an arbitrary function
`encodeRaw : String → List Nat` and its (possibly undefined) special-token
ids as `Option Nat` fields.  `tokenizer.encode(text, add_special_tokens=False,
max_length=m, truncation=True)` returns the first `m` raw token ids. -/

/-- The loaded tokenizer: a raw encoding function plus optional
special-token ids, as exposed by `PreTrainedTokenizerFast`. -/
structure Tokenizer where
  encodeRaw : String → List Nat
  pad_token_id : Option Nat
  bos_token_id : Option Nat
  eos_token_id : Option Nat

/-- Embedding of `tokenizer.encode(text, add_special_tokens=False, max_length=m,
truncation=True)`: the raw encoding truncated to at most `m` tokens. -/
def Tokenizer.encode (tok : Tokenizer) (text : String) (max_length : Nat) : List Nat :=
  (tok.encodeRaw text).take max_length

/-! ## TranslationDataset.__getitem__ (dataset.py lines 21-59) -/

/-- Embedding of `TranslationDataset.__getitem__`: extract the source/target strings,
encode each with truncation to `max_length - 2` tokens, and frame each
side with the BOS and EOS ids (falling back to 1 and 2 when the tokenizer
defines none).  Returns the `src` and `tgt` id sequences. -/
def getItem (tok : Tokenizer) (max_length : Nat) (item : CorpusItem) :
    List Nat × List Nat :=
  let texts := extractTexts item
  let src_token_ids := tok.encode texts.1 (max_length - 2)
  let tgt_token_ids := tok.encode texts.2 (max_length - 2)
  let bos_id := tok.bos_token_id.getD 1
  let eos_id := tok.eos_token_id.getD 2
  ([bos_id] ++ src_token_ids ++ [eos_id], [bos_id] ++ tgt_token_ids ++ [eos_id])

/-! ## collate_fn (dataset.py lines 61-70)

`pad_sequence(batch, batch_first=True, padding_value=pad)` pads every
sequence on the right with `pad` to the length of the longest sequence in
the batch. -/

/-- One tokenized example pair as produced by `__getitem__`. -/
structure TokItem where
  src : List Nat
  tgt : List Nat
deriving DecidableEq, Repr

/-- Embedding of `torch.nn.utils.rnn.pad_sequence(seqs, batch_first=True,
padding_value=pad)`: right-pad each sequence to the batch maximum
length. -/
def batchMaxLen (seqs : List (List Nat)) : Nat :=
  (seqs.map List.length).foldl max 0

def padSequence (pad : Nat) (seqs : List (List Nat)) : List (List Nat) :=
  seqs.map (fun s => s ++ List.replicate (batchMaxLen seqs - s.length) pad)

/-- Embedding of `collate_fn(batch, pad_token_id)`: split the batch into source and
target sequences and right-pad each side independently. -/
def collate_fn (batch : List TokItem) (pad_token_id : Nat) :
    List (List Nat) × List (List Nat) :=
  (padSequence pad_token_id (batch.map TokItem.src),
   padSequence pad_token_id (batch.map TokItem.tgt))

/-! ## Leakage check and filter (dataset.py lines 139-155)

`train_de_sentences = {sample['de'] for sample in train_data}`;
`leaked_samples = [s for s in val_data if s['de'] in train_de_sentences]`;
when leaked samples exist, validation is filtered to the records whose
`de` string is not in the set of leaked `de` strings.  Python set
membership on strings is string equality, modelled with `List.contains`
over the list of `de` strings. -/

/-- The list of leaked validation records: those whose `de` sentence is
among the training `de` sentences (dataset.py line 141). -/
def leakedSamples (train_data val_data : List Record) : List Record :=
  let train_de_sentences := train_data.map Record.de
  val_data.filter (fun s => decide (s.de ∈ train_de_sentences))

/-- The leakage filter of `create_dataloaders` (dataset.py lines 139-155):
if any leaked records exist, keep only the validation records whose `de`
string is not among the leaked `de` strings; otherwise pass the validation
collection through unchanged. -/
def leakageFilter (train_data val_data : List Record) : List Record :=
  let leaked_samples := leakedSamples train_data val_data
  if leaked_samples.length > 0 then
    let leaked_de_sentences_set := leaked_samples.map Record.de
    val_data.filter (fun ex => decide (ex.de ∉ leaked_de_sentences_set))
  else
    val_data

/-- The count reported at dataset.py line 155:
`original_val_size - len(val_data)` after filtering. -/
def reportedFilteredCount (train_data val_data : List Record) : Nat :=
  val_data.length - (leakageFilter train_data val_data).length

/-! ## Special-token id resolution (dataset.py lines 111-129)

After loading, any of `pad_token_id`, `bos_token_id`, `eos_token_id` that
is `None` is assigned its fallback constant (3, 1 and 2 respectively). -/

/-- The resolved special-token id triple. -/
structure SpecialIds where
  pad : Nat
  bos : Nat
  eos : Nat
deriving DecidableEq, Repr

/-- The fallback assignment of dataset.py lines 114-119: each id that the
loaded tokenizer leaves undefined becomes its fallback constant
(PAD=3, BOS=1, EOS=2); a defined id is kept as-is. -/
def resolveSpecialIds (tok : Tokenizer) : SpecialIds :=
  { pad := tok.pad_token_id.getD 3
    bos := tok.bos_token_id.getD 1
    eos := tok.eos_token_id.getD 2 }

/-! ## create_dataloaders (dataset.py lines 72-215)

The assembly function interacts with the outside world: the filesystem
(tokenizer artifact existence), the corpus source (`load_dataset`, which
may fail), and a seeded shuffle.  These are gathered in an environment
record.  The observable outcome of a run is either the pair of datasets
plus the resolved tokenizer ids, an uncaught exception (the
`FileNotFoundError` of line 106 is raised before the `try` block), or a
process exit via `sys.exit(1)` from the `except` handler of lines
178-182, which prints the error only when `rank == 0`. -/

/-- The uncaught exceptions `create_dataloaders` can raise. -/
inductive PyError where
  | fileNotFound
deriving DecidableEq, Repr

/-- Observable outcome of a `create_dataloaders` run: normal return
(training records, validation records, resolved ids), an uncaught raised
exception, or process termination via `sys.exit` with an exit code and
whether the error was printed first. -/
inductive RunOutcome where
  | ok (train_data val_data : List Record) (ids : SpecialIds)
  | raised (e : PyError)
  | exited (code : Nat) (loggedError : Bool)
deriving DecidableEq, Repr

/-- External world of one `create_dataloaders` call: whether the tokenizer
artifact file exists, the loaded tokenizer, the results of fetching the
`train` and `validation` splits (`load_dataset` may fail), the
seed-determined shuffle order used by `train_data.shuffle(seed + 1)`, and
the process rank. -/
structure Env where
  tokenizerFileExists : Bool
  tokenizer : Tokenizer
  fetchTrain : Except String (List Record)
  fetchVal : Except String (List Record)
  shuffleOrder : List Nat
  rank : Nat
  subset_size : Option Nat

/-- Embedding of `train_data.shuffle(seed + 1).select(range(subset_size))` (dataset.py
line 165): reorder by the seed-determined permutation, then keep the first
`subset_size` records. -/
def shuffleSelect (order : List Nat) (n : Nat) (xs : List Record) : List Record :=
  ((order.filterMap (fun i => xs.get? i)).take n)

/-- The training-split subsetting step (dataset.py lines 162-165): applied
only when a subset size is given and is smaller than the split. -/
def subsetTrain (env : Env) (train_data : List Record) : List Record :=
  match env.subset_size with
  | some n => if n < train_data.length then shuffleSelect env.shuffleOrder n train_data
              else train_data
  | none => train_data

/-- Shallow embedding of `create_dataloaders` (dataset.py lines 72-215).
The missing tokenizer artifact raises `FileNotFoundError` before the `try`
block (lines 104-106); the special-token fallbacks are applied (lines
111-129); inside the `try` block the two splits are fetched, the leakage
filter runs only when `rank == 0` (lines 137-160), and the training split
is optionally subsetted (lines 162-165); any failure inside the `try`
block is caught, printed only on rank 0, and ends the process with
`sys.exit(1)` (lines 178-182). -/
def create_dataloaders (env : Env) : RunOutcome :=
  if ¬ env.tokenizerFileExists then
    .raised .fileNotFound
  else
    let ids := resolveSpecialIds env.tokenizer
    match env.fetchTrain with
    | .error _ => .exited 1 (env.rank == 0)
    | .ok train_data =>
      match env.fetchVal with
      | .error _ => .exited 1 (env.rank == 0)
      | .ok val_data =>
        let val_data := if env.rank == 0 then leakageFilter train_data val_data
                        else val_data
        let train_data := subsetTrain env train_data
        .ok train_data val_data ids

/-! ## Encoder stack (encoder.py)

Tensor entries are modelled as rationals.  The transcendental scalar
functions of the source — the GELU activation, the exponential inside
softmax, the reciprocal square root of LayerNorm's variance and the
`1/sqrt(d_k)` attention scale — are carried as function/constant
parameters of the corresponding modules: they act pointwise and cannot
change any shape.  `nn.Dropout` is modelled in its evaluation-mode
semantics (identity); its training-mode random zeroing is also pointwise
and shape-preserving.  A `[T, D]` activation is a list of `T` rows of
width `D`; the batch dimension is the outer list of a `[B, T, D]`
tensor, and every module acts on each batch element independently. -/

/-- A row vector of rational entries. -/
abbrev Vec := List ℚ

/-- A `[rows, cols]` matrix as a list of row vectors. -/
abbrev Mat := List Vec

/-- Dot product of two rows (excess entries of the longer row ignored,
as in a well-shaped product they never arise). -/
def dotProd (u v : Vec) : ℚ :=
  ((u.zip v).map (fun p => p.1 * p.2)).sum

/-- One output row of `nn.Linear`: the weight `W` is stored as
`[out_features, in_features]` and the layer computes `x W^T + b`. -/
def linearRow (W : Mat) (b : Vec) (x : Vec) : Vec :=
  (W.zip b).map (fun wb => dotProd wb.1 x + wb.2)

/-- Embedding of `nn.Linear` applied to every row of a `[T, in]` activation. -/
def linearMap (W : Mat) (b : Vec) (x : Mat) : Mat :=
  x.map (linearRow W b)

/-- Row softmax with the exponential abstracted: each entry is mapped by
`aexp` and divided by the row sum of mapped entries. -/
def softmaxRow (aexp : ℚ → ℚ) (r : Vec) : Vec :=
  let e := r.map aexp
  let s := e.sum
  e.map (fun x => x / s)

/-- Parameters of multi-head self-attention: the four projections, the
head count, the abstract softmax exponential and the abstract
`1/sqrt(d_k)` score scale. -/
structure MHAParams where
  nHeads : Nat
  wq : Mat
  bq : Vec
  wk : Mat
  bk : Vec
  wv : Mat
  bv : Vec
  wo : Mat
  bo : Vec
  aexp : ℚ → ℚ
  scale : ℚ

/-- Columns `[a, a + b)` of every row. -/
def sliceCols (a b : Nat) (m : Mat) : Mat :=
  m.map (fun r => (r.drop a).take b)

/-- Scaled attention scores `scale * (Q K^T)` of one head. -/
def attnScores (scale : ℚ) (Q K : Mat) : Mat :=
  Q.map (fun q => K.map (fun k => scale * dotProd q k))

/-- Optional additive attention-mask bias on the `[T, T]` scores. -/
def addMask (scores : Mat) (mask : Option Mat) : Mat :=
  match mask with
  | none => scores
  | some m => (scores.zip m).map (fun p => (p.1.zip p.2).map (fun q => q.1 + q.2))

/-- The weighted combination `w · V` of the value rows of one head
(`dh` is the per-head width). -/
def weightedSum (w : Vec) (V : Mat) (dh : Nat) : Vec :=
  (w.zip V).foldl
    (fun acc p => (acc.zip (p.2.map (fun v => p.1 * v))).map (fun q => q.1 + q.2))
    (List.replicate dh 0)

/-- One attention head: mask-biased scaled scores, row softmax, then the
weighted combination of the value rows. -/
def attnHead (p : MHAParams) (dh : Nat) (mask : Option Mat) (Qh Kh Vh : Mat) : Mat :=
  let scores := addMask (attnScores p.scale Qh Kh) mask
  let weights := scores.map (softmaxRow p.aexp)
  weights.map (fun w => weightedSum w Vh dh)

/-- Concatenation of the per-head `[T, dh]` outputs along the feature
dimension. -/
def concatHeads (T : Nat) (heads : List Mat) : Mat :=
  (List.range T).map (fun i => (heads.map (fun m => m.getD i [])).flatten)

/-- Modelled from the spec: `src/attention.py` (the `MultiHeadAttention`
module imported by encoder.py) is not part of the given sources, so
multi-head self-attention follows spec section 4.6 — project the input
into queries, keys and values, split the model dimension `D` into
`nHeads` heads of size `D / nHeads`, compute softmax-weighted scaled
dot-product attention per head with the optional additive mask, concat
the heads and project back to `D`. -/
def multiHeadAttention (p : MHAParams) (d_model : Nat) (x : Mat)
    (mask : Option Mat) : Mat :=
  let Q := linearMap p.wq p.bq x
  let K := linearMap p.wk p.bk x
  let V := linearMap p.wv p.bv x
  let dh := d_model / p.nHeads
  let heads := (List.range p.nHeads).map (fun h =>
    attnHead p dh mask (sliceCols (h * dh) dh Q) (sliceCols (h * dh) dh K)
      (sliceCols (h * dh) dh V))
  linearMap p.wo p.bo (concatHeads x.length heads)

/-- Parameters of `nn.LayerNorm(d_model)`: the affine weights and bias,
the epsilon, and the abstract reciprocal square root. -/
structure LayerNormParams where
  gamma : Vec
  beta : Vec
  eps : ℚ
  rsqrt : ℚ → ℚ

/-- Embedding of `nn.LayerNorm` on one row: centre by the row mean, scale by the
reciprocal square root of the row variance plus epsilon, then apply the
elementwise affine transform. -/
def layerNormRow (p : LayerNormParams) (row : Vec) : Vec :=
  let n : ℚ := (row.length : ℚ)
  let mean := row.sum / n
  let variance := (row.map (fun x => (x - mean) ^ 2)).sum / n
  let s := p.rsqrt (variance + p.eps)
  ((row.zip p.gamma).zip p.beta).map
    (fun q => q.1.2 * ((q.1.1 - mean) * s) + q.2)

/-- Embedding of `nn.LayerNorm` over the last dimension of a `[T, D]` activation. -/
def layerNorm (p : LayerNormParams) (x : Mat) : Mat :=
  x.map (layerNormRow p)

/-- Parameters of the position-wise feed-forward block
`nn.Sequential(nn.Linear(d_model, d_ff), nn.GELU(), nn.Dropout(dropout),
nn.Linear(d_ff, d_model))`, with the GELU nonlinearity abstracted. -/
structure FFParams where
  w1 : Mat
  b1 : Vec
  w2 : Mat
  b2 : Vec
  gelu : ℚ → ℚ

/-- The feed-forward block of `EncoderLayer` (encoder.py line 8):
linear to `d_ff`, GELU, dropout (identity in evaluation mode), linear
back to `d_model`. -/
def feedForward (p : FFParams) (x : Mat) : Mat :=
  linearMap p.w2 p.b2 ((linearMap p.w1 p.b1 x).map (fun r => r.map p.gelu))

/-- Parameters of one `EncoderLayer` (encoder.py lines 4-11). -/
structure EncoderLayerParams where
  d_model : Nat
  attn : MHAParams
  ff : FFParams
  norm1 : LayerNormParams
  norm2 : LayerNormParams

/-- Elementwise sum of two same-shape activations (the residual adds of
encoder.py lines 16 and 20). -/
def addMat (a b : Mat) : Mat :=
  (a.zip b).map (fun p => (p.1.zip p.2).map (fun q => q.1 + q.2))

/-- Embedding of `EncoderLayer.forward` (encoder.py lines 13-21): self-attention with
residual connection and LayerNorm, then feed-forward with residual
connection and LayerNorm (dropout is identity in evaluation mode). -/
def encoderLayerForward (p : EncoderLayerParams) (x : Mat)
    (mask : Option Mat) : Mat :=
  let attn_output := multiHeadAttention p.attn p.d_model x mask
  let x1 := layerNorm p.norm1 (addMat x attn_output)
  let ff_output := feedForward p.ff x1
  layerNorm p.norm2 (addMat x1 ff_output)

/-- One `EncoderLayer` applied to every element of a `[B, T, D]` batch. -/
def encoderLayerForwardB (p : EncoderLayerParams) (x : List Mat)
    (mask : Option Mat) : List Mat :=
  x.map (fun s => encoderLayerForward p s mask)

/-- Embedding of `Encoder.forward` (encoder.py lines 28-31): fold the layer list over
the input batch; with no layers the input is returned unchanged. -/
def encoderForward (layers : List EncoderLayerParams) (x : List Mat)
    (mask : Option Mat) : List Mat :=
  layers.foldl (fun y layer => encoderLayerForwardB layer y mask) x

/-! ### Shape predicates and parameter well-formedness -/

/-- A `[r, c]` matrix: `r` rows, each of width `c`. -/
def isMat (m : Mat) (r c : Nat) : Prop :=
  m.length = r ∧ ∀ row ∈ m, row.length = c

/-- A `[B, T, D]` tensor: `B` batch elements, each a `[T, D]` matrix. -/
def isTensor3 (x : List Mat) (B T D : Nat) : Prop :=
  x.length = B ∧ ∀ m ∈ x, isMat m T D

/-- Shapes `MultiHeadAttention(d_model, n_heads)` creates: four square
`[D, D]` projections with `[D]` biases, a positive head count dividing
`D` (spec section 4.6: `D` must be evenly divisible by `H`). -/
def mhaWF (p : MHAParams) (D : Nat) : Prop :=
  0 < p.nHeads ∧ p.nHeads ∣ D ∧
  isMat p.wq D D ∧ p.bq.length = D ∧
  isMat p.wk D D ∧ p.bk.length = D ∧
  isMat p.wv D D ∧ p.bv.length = D ∧
  isMat p.wo D D ∧ p.bo.length = D

/-- Shapes `nn.LayerNorm(d_model)` creates: `[D]` affine weights. -/
def lnWF (p : LayerNormParams) (D : Nat) : Prop :=
  p.gamma.length = D ∧ p.beta.length = D

/-- Shapes the feed-forward `nn.Sequential` creates:
`[F, D]` then `[D, F]` weights with matching biases. -/
def ffWF (p : FFParams) (D F : Nat) : Prop :=
  isMat p.w1 F D ∧ p.b1.length = F ∧ isMat p.w2 D F ∧ p.b2.length = D

/-- Shapes `EncoderLayer(d_model, n_heads, d_ff)` creates. -/
def layerWF (p : EncoderLayerParams) (D F : Nat) : Prop :=
  p.d_model = D ∧ mhaWF p.attn D ∧ ffWF p.ff D F ∧
  lnWF p.norm1 D ∧ lnWF p.norm2 D

instance (m : Mat) (r c : Nat) : Decidable (isMat m r c) := by
  unfold isMat; infer_instance

instance (x : List Mat) (B T D : Nat) : Decidable (isTensor3 x B T D) := by
  unfold isTensor3; infer_instance

instance (p : MHAParams) (D : Nat) : Decidable (mhaWF p D) := by
  unfold mhaWF; infer_instance

instance (p : LayerNormParams) (D : Nat) : Decidable (lnWF p D) := by
  unfold lnWF; infer_instance

instance (p : FFParams) (D F : Nat) : Decidable (ffWF p D F) := by
  unfold ffWF; infer_instance

instance (p : EncoderLayerParams) (D F : Nat) : Decidable (layerWF p D F) := by
  unfold layerWF; infer_instance

/-- A concrete one-head encoder layer with `d_model = d_ff = 1`, used to
evaluate the encoder on a concrete input. -/
def toyLayer : EncoderLayerParams :=
  { d_model := 1
    attn :=
      { nHeads := 1
        wq := [[1]], bq := [0]
        wk := [[1]], bk := [0]
        wv := [[1]], bv := [0]
        wo := [[1]], bo := [0]
        aexp := fun _ => 1
        scale := 1 }
    ff :=
      { w1 := [[1]], b1 := [0]
        w2 := [[1]], b2 := [0]
        gelu := fun v => v }
    norm1 := { gamma := [1], beta := [0], eps := 0, rsqrt := fun _ => 1 }
    norm2 := { gamma := [1], beta := [0], eps := 0, rsqrt := fun _ => 1 } }

/-! ## Helper lemmas -/

lemma init_le_foldl_max (l : List Nat) (a : Nat) : a ≤ l.foldl max a := by
  induction l generalizing a with
  | nil => simp
  | cons b t ih => exact le_trans (le_max_left a b) (ih (max a b))

lemma le_foldl_max {l : List Nat} {x : Nat} (a : Nat) (hx : x ∈ l) :
    x ≤ l.foldl max a := by
  induction l generalizing a with
  | nil => cases hx
  | cons b t ih =>
    rcases List.mem_cons.mp hx with rfl | h
    · exact le_trans (le_max_right a x) (init_le_foldl_max t (max a x))
    · exact ih (max a b) h

lemma getLast?_append_single (l : List Nat) (a : Nat) :
    (l ++ [a]).getLast? = some a := by
  simp

lemma length_le_batchMaxLen {seqs : List (List Nat)} {s : List Nat}
    (hs : s ∈ seqs) : s.length ≤ batchMaxLen seqs :=
  le_foldl_max 0 (List.mem_map.mpr ⟨s, hs, rfl⟩)

/-- Elementwise description of `padSequence`: row count, row lengths,
trailing pad region and untouched prefix. -/
lemma padSequence_spec (pad : Nat) (seqs : List (List Nat)) :
    (padSequence pad seqs).length = seqs.length ∧
    (∀ row ∈ padSequence pad seqs, row.length = batchMaxLen seqs) ∧
    ∀ i, i < seqs.length →
      (padSequence pad seqs).getD i [] =
        seqs.getD i [] ++
          List.replicate (batchMaxLen seqs - (seqs.getD i []).length) pad := by
  refine ⟨by simp [padSequence], ?_, ?_⟩
  · intro row hrow
    obtain ⟨s, hs, rfl⟩ := List.mem_map.mp hrow
    have := length_le_batchMaxLen hs
    simp [List.length_append]
    omega
  · intro i hi
    have h1 : (padSequence pad seqs)[i]? =
        some (seqs[i] ++
          List.replicate (batchMaxLen seqs - (seqs[i]).length) pad) := by
      simp [padSequence, List.getElem?_map, List.getElem?_eq_getElem hi]
    have h2 : seqs[i]? = some (seqs[i]) := List.getElem?_eq_getElem hi
    simp [List.getD, h1, h2]

lemma getD_append_left {l r : List Nat} {j : Nat} (d : Nat)
    (hj : j < l.length) : (l ++ r).getD j d = l.getD j d := by
  simp [List.getD, List.getElem?_append_left hj]

lemma getD_append_replicate_pad {l : List Nat} {n j : Nat} (pad : Nat)
    (hj1 : l.length ≤ j) (hj2 : j < l.length + n) :
    (l ++ List.replicate n pad).getD j 0 = pad := by
  have : j - l.length < n := by omega
  simp [List.getD, List.getElem?_append_right hj1, List.getElem?_replicate, this]

/-! ## Dataset theorems -/

/-- C2: for every corpus record (flat or nested), `__getitem__` returns a
source and a target sequence that each begin with the BOS id, end with the
EOS id, and have length between 2 and `max_seq_len`. -/
theorem getItem_bos_eos_bounded (tok : Tokenizer) (max_length : Nat)
    (item : CorpusItem) (hL : 2 ≤ max_length) :
    ((getItem tok max_length item).1.head? = some (tok.bos_token_id.getD 1) ∧
     (getItem tok max_length item).1.getLast? = some (tok.eos_token_id.getD 2) ∧
     2 ≤ (getItem tok max_length item).1.length ∧
     (getItem tok max_length item).1.length ≤ max_length) ∧
    ((getItem tok max_length item).2.head? = some (tok.bos_token_id.getD 1) ∧
     (getItem tok max_length item).2.getLast? = some (tok.eos_token_id.getD 2) ∧
     2 ≤ (getItem tok max_length item).2.length ∧
     (getItem tok max_length item).2.length ≤ max_length) := by
  have hsrc : ((tok.encode (extractTexts item).1 (max_length - 2)).length)
      ≤ max_length - 2 := by
    simp [Tokenizer.encode]
  have htgt : ((tok.encode (extractTexts item).2 (max_length - 2)).length)
      ≤ max_length - 2 := by
    simp [Tokenizer.encode]
  have e1 : (getItem tok max_length item).1
      = (tok.bos_token_id.getD 1) ::
        (tok.encode (extractTexts item).1 (max_length - 2) ++
          [tok.eos_token_id.getD 2]) := rfl
  have e2 : (getItem tok max_length item).2
      = (tok.bos_token_id.getD 1) ::
        (tok.encode (extractTexts item).2 (max_length - 2) ++
          [tok.eos_token_id.getD 2]) := rfl
  have l1 : (getItem tok max_length item).1.length
      = (tok.encode (extractTexts item).1 (max_length - 2)).length + 2 := by
    rw [e1]; simp
  have l2 : (getItem tok max_length item).2.length
      = (tok.encode (extractTexts item).2 (max_length - 2)).length + 2 := by
    rw [e2]; simp
  constructor
  · refine ⟨by rw [e1]; rfl, ?_, ?_, ?_⟩
    · rw [e1, ← List.cons_append, getLast?_append_single]
    · rw [l1]; omega
    · rw [l1]; omega
  · refine ⟨by rw [e2]; rfl, ?_, ?_, ?_⟩
    · rw [e2, ← List.cons_append, getLast?_append_single]
    · rw [l2]; omega
    · rw [l2]; omega

/-- Witness for C2 at a concrete tokenizer, record and bound. -/
theorem getItem_bos_eos_bounded_witness :
    2 ≤ 4 ∧
    ((getItem ⟨fun _ => [5, 6, 7], none, none, none⟩ 4
        (.flat ⟨"hello", "hallo"⟩)).1.head? = some 1 ∧
     (getItem ⟨fun _ => [5, 6, 7], none, none, none⟩ 4
        (.flat ⟨"hello", "hallo"⟩)).1.getLast? = some 2 ∧
     2 ≤ (getItem ⟨fun _ => [5, 6, 7], none, none, none⟩ 4
        (.flat ⟨"hello", "hallo"⟩)).1.length ∧
     (getItem ⟨fun _ => [5, 6, 7], none, none, none⟩ 4
        (.flat ⟨"hello", "hallo"⟩)).1.length ≤ 4) ∧
    ((getItem ⟨fun _ => [5, 6, 7], none, none, none⟩ 4
        (.flat ⟨"hello", "hallo"⟩)).2.head? = some 1 ∧
     (getItem ⟨fun _ => [5, 6, 7], none, none, none⟩ 4
        (.flat ⟨"hello", "hallo"⟩)).2.getLast? = some 2 ∧
     2 ≤ (getItem ⟨fun _ => [5, 6, 7], none, none, none⟩ 4
        (.flat ⟨"hello", "hallo"⟩)).2.length ∧
     (getItem ⟨fun _ => [5, 6, 7], none, none, none⟩ 4
        (.flat ⟨"hello", "hallo"⟩)).2.length ≤ 4) :=
  ⟨by norm_num,
   getItem_bos_eos_bounded ⟨fun _ => [5, 6, 7], none, none, none⟩ 4
     (.flat ⟨"hello", "hallo"⟩) (by norm_num)⟩

/-- C3: for every non-empty batch and pad id, `collate_fn` returns two
rectangular row-lists of shape `[batch_size, max_len_in_batch]` in which
each row's trailing region past that example's original length equals the
pad id, and each interior position keeps the original token (so an
interior position equals the pad id only if the pad id occurred in the
original sequence). -/
theorem collate_fn_pads_on_right (batch : List TokItem) (pad : Nat)
    (hne : batch ≠ []) :
    (collate_fn batch pad).1.length = batch.length ∧
    (collate_fn batch pad).2.length = batch.length ∧
    (∀ row ∈ (collate_fn batch pad).1,
      row.length = batchMaxLen (batch.map TokItem.src)) ∧
    (∀ row ∈ (collate_fn batch pad).2,
      row.length = batchMaxLen (batch.map TokItem.tgt)) ∧
    (∀ i, i < batch.length →
      (∀ j, ((batch.map TokItem.src).getD i []).length ≤ j →
          j < batchMaxLen (batch.map TokItem.src) →
          ((collate_fn batch pad).1.getD i []).getD j 0 = pad) ∧
      (∀ j, j < ((batch.map TokItem.src).getD i []).length →
          ((collate_fn batch pad).1.getD i []).getD j 0 =
            ((batch.map TokItem.src).getD i []).getD j 0)) ∧
    (∀ i, i < batch.length →
      (∀ j, ((batch.map TokItem.tgt).getD i []).length ≤ j →
          j < batchMaxLen (batch.map TokItem.tgt) →
          ((collate_fn batch pad).2.getD i []).getD j 0 = pad) ∧
      (∀ j, j < ((batch.map TokItem.tgt).getD i []).length →
          ((collate_fn batch pad).2.getD i []).getD j 0 =
            ((batch.map TokItem.tgt).getD i []).getD j 0)) := by
  obtain ⟨hs1, hs2, hs3⟩ := padSequence_spec pad (batch.map TokItem.src)
  obtain ⟨ht1, ht2, ht3⟩ := padSequence_spec pad (batch.map TokItem.tgt)
  refine ⟨by simpa using hs1, by simpa using ht1, hs2, ht2, ?_, ?_⟩
  · intro i hi
    have hi' : i < (batch.map TokItem.src).length := by simpa using hi
    have hrow := hs3 i hi'
    have hlen : ((batch.map TokItem.src).getD i []).length
        ≤ batchMaxLen (batch.map TokItem.src) := by
      refine length_le_batchMaxLen ?_
      have : (batch.map TokItem.src).getD i []
          = (batch.map TokItem.src)[i] := by
        simp [List.getD, List.getElem?_eq_getElem hi']
      rw [this]
      exact List.getElem_mem _
    constructor
    · intro j hj1 hj2
      rw [show (collate_fn batch pad).1 = padSequence pad (batch.map TokItem.src)
            from rfl, hrow]
      exact getD_append_replicate_pad pad hj1 (by omega)
    · intro j hj
      rw [show (collate_fn batch pad).1 = padSequence pad (batch.map TokItem.src)
            from rfl, hrow]
      exact getD_append_left 0 hj
  · intro i hi
    have hi' : i < (batch.map TokItem.tgt).length := by simpa using hi
    have hrow := ht3 i hi'
    have hlen : ((batch.map TokItem.tgt).getD i []).length
        ≤ batchMaxLen (batch.map TokItem.tgt) := by
      refine length_le_batchMaxLen ?_
      have : (batch.map TokItem.tgt).getD i []
          = (batch.map TokItem.tgt)[i] := by
        simp [List.getD, List.getElem?_eq_getElem hi']
      rw [this]
      exact List.getElem_mem _
    constructor
    · intro j hj1 hj2
      rw [show (collate_fn batch pad).2 = padSequence pad (batch.map TokItem.tgt)
            from rfl, hrow]
      exact getD_append_replicate_pad pad hj1 (by omega)
    · intro j hj
      rw [show (collate_fn batch pad).2 = padSequence pad (batch.map TokItem.tgt)
            from rfl, hrow]
      exact getD_append_left 0 hj

/-- Witness for C3 at a concrete two-example batch. -/
theorem collate_fn_pads_on_right_witness :
    ([⟨[1, 5, 2], [1, 6, 7, 2]⟩, ⟨[1, 2], [1, 8, 2]⟩] : List TokItem) ≠ [] ∧
    ((collate_fn [⟨[1, 5, 2], [1, 6, 7, 2]⟩, ⟨[1, 2], [1, 8, 2]⟩] 3).1.getD 1 []).getD 2 0
      = 3 :=
  ⟨by decide,
   (((collate_fn_pads_on_right
        [⟨[1, 5, 2], [1, 6, 7, 2]⟩, ⟨[1, 2], [1, 8, 2]⟩] 3
        (by decide)).2.2.2.2.1 1 (by decide)).1 2 (by decide) (by decide))⟩

/-- C10: `collate_fn` preserves example order and source/target pairing:
row `i` of the source side begins with exactly the `i`-th input item's
source sequence, and row `i` of the target side begins with exactly the
same item's target sequence. -/
theorem collate_fn_preserves_order (batch : List TokItem) (pad : Nat)
    (i : Nat) (hi : i < batch.length) :
    ((collate_fn batch pad).1.getD i []).take
        ((batch.getD i ⟨[], []⟩).src.length) = (batch.getD i ⟨[], []⟩).src ∧
    ((collate_fn batch pad).2.getD i []).take
        ((batch.getD i ⟨[], []⟩).tgt.length) = (batch.getD i ⟨[], []⟩).tgt := by
  obtain ⟨-, -, hs3⟩ := padSequence_spec pad (batch.map TokItem.src)
  obtain ⟨-, -, ht3⟩ := padSequence_spec pad (batch.map TokItem.tgt)
  have his : i < (batch.map TokItem.src).length := by simpa using hi
  have hit : i < (batch.map TokItem.tgt).length := by simpa using hi
  have hgs : (batch.map TokItem.src).getD i [] = (batch.getD i ⟨[], []⟩).src := by
    simp [List.getD, List.getElem?_eq_getElem hi, List.getElem?_map,
      List.getElem?_eq_getElem his]
  have hgt : (batch.map TokItem.tgt).getD i [] = (batch.getD i ⟨[], []⟩).tgt := by
    simp [List.getD, List.getElem?_eq_getElem hi, List.getElem?_map,
      List.getElem?_eq_getElem hit]
  constructor
  · rw [show (collate_fn batch pad).1 = padSequence pad (batch.map TokItem.src)
        from rfl, hs3 i his, hgs, List.take_left]
  · rw [show (collate_fn batch pad).2 = padSequence pad (batch.map TokItem.tgt)
        from rfl, ht3 i hit, hgt, List.take_left]

/-- Witness for C10 at a concrete batch and row index. -/
theorem collate_fn_preserves_order_witness :
    (1 : Nat) < ([⟨[1, 5, 2], [1, 6, 7, 2]⟩, ⟨[1, 2], [1, 8, 2]⟩] : List TokItem).length ∧
    (((collate_fn [⟨[1, 5, 2], [1, 6, 7, 2]⟩, ⟨[1, 2], [1, 8, 2]⟩] 3).1.getD 1 []).take
        ((([⟨[1, 5, 2], [1, 6, 7, 2]⟩, ⟨[1, 2], [1, 8, 2]⟩] : List TokItem).getD 1
            ⟨[], []⟩).src.length)
      = (([⟨[1, 5, 2], [1, 6, 7, 2]⟩, ⟨[1, 2], [1, 8, 2]⟩] : List TokItem).getD 1
          ⟨[], []⟩).src ∧
     ((collate_fn [⟨[1, 5, 2], [1, 6, 7, 2]⟩, ⟨[1, 2], [1, 8, 2]⟩] 3).2.getD 1 []).take
        ((([⟨[1, 5, 2], [1, 6, 7, 2]⟩, ⟨[1, 2], [1, 8, 2]⟩] : List TokItem).getD 1
            ⟨[], []⟩).tgt.length)
      = (([⟨[1, 5, 2], [1, 6, 7, 2]⟩, ⟨[1, 2], [1, 8, 2]⟩] : List TokItem).getD 1
          ⟨[], []⟩).tgt) :=
  ⟨by decide,
   collate_fn_preserves_order [⟨[1, 5, 2], [1, 6, 7, 2]⟩, ⟨[1, 2], [1, 8, 2]⟩] 3 1
     (by decide)⟩

/-! ## Leakage-filter lemmas -/

/-- For a validation record, membership of its `de` string among the
leaked `de` strings is the same as membership among the training `de`
strings. -/
lemma mem_leaked_de_iff {train_data val_data : List Record} {s : Record}
    (hs : s ∈ val_data) :
    s.de ∈ (leakedSamples train_data val_data).map Record.de ↔
      s.de ∈ train_data.map Record.de := by
  constructor
  · intro h
    obtain ⟨t, ht, hde⟩ := List.mem_map.mp h
    have := (List.mem_filter.mp ht).2
    rw [← hde]
    simpa using this
  · intro h
    exact List.mem_map.mpr
      ⟨s, List.mem_filter.mpr ⟨hs, by simpa using h⟩, rfl⟩

/-- The leakage filter, in closed form: it keeps exactly the validation
records whose `de` string is not among the training `de` strings. -/
lemma leakageFilter_eq_filter (train_data val_data : List Record) :
    leakageFilter train_data val_data
      = val_data.filter (fun s => decide (s.de ∉ train_data.map Record.de)) := by
  unfold leakageFilter
  by_cases h : 0 < (leakedSamples train_data val_data).length
  · simp only [h, if_true]
    apply List.filter_congr
    intro s hs
    simp [@mem_leaked_de_iff train_data val_data s hs]
  · have hnil : leakedSamples train_data val_data = [] :=
      List.eq_nil_of_length_eq_zero (by omega)
    simp only [h, if_false]
    symm
    apply List.filter_eq_self.mpr
    intro s hs
    by_contra hmem
    have hsde : s.de ∈ train_data.map Record.de := by
      simpa using hmem
    have : s ∈ leakedSamples train_data val_data :=
      List.mem_filter.mpr ⟨hs, by simpa using hsde⟩
    rw [hnil] at this
    cases this

/-- Splitting a filter by a predicate and its negation recovers the
length of the list. -/
lemma length_filter_add_length_filter_not (p : Record → Prop) [DecidablePred p]
    (l : List Record) :
    (l.filter (fun s => decide (p s))).length
      + (l.filter (fun s => decide (¬ p s))).length = l.length := by
  induction l with
  | nil => rfl
  | cons a t ih =>
    by_cases hpa : p a <;>
      simp [List.filter_cons, hpa, ← ih] <;> omega

/-- Every record kept by the leakage filter is a validation record whose
`de` string does not occur among the training `de` strings. -/
lemma mem_leakageFilter {train_data val_data : List Record} {s : Record}
    (hs : s ∈ leakageFilter train_data val_data) :
    s ∈ val_data ∧ s.de ∉ train_data.map Record.de := by
  rw [leakageFilter_eq_filter] at hs
  have := List.mem_filter.mp hs
  exact ⟨this.1, by simpa using this.2⟩

/-- When no validation record is leaked the filter is a pass-through. -/
lemma leakageFilter_of_no_leak {train_data val_data : List Record}
    (h : leakedSamples train_data val_data = []) :
    leakageFilter train_data val_data = val_data := by
  unfold leakageFilter
  simp [h]

/-! ## Leakage-filter theorems -/

/-- C4: the leakage filter removes exactly the validation records whose
`de` string occurs among the training `de` strings, the reported count is
the number of removed (leaked) records, a leak-free validation collection
passes through unchanged, and on the concrete example of the spec
(training targets Hallo/Welt, validation records (x, Hallo) and
(y, Katze)) it keeps exactly (y, Katze) and reports one filtered
record. -/
theorem leakageFilter_exact (train_data val_data : List Record) :
    leakageFilter train_data val_data
      = val_data.filter (fun s => decide (s.de ∉ train_data.map Record.de)) ∧
    reportedFilteredCount train_data val_data
      = (leakedSamples train_data val_data).length ∧
    (leakedSamples train_data val_data = [] →
      leakageFilter train_data val_data = val_data) ∧
    (leakageFilter [⟨"a", "Hallo"⟩, ⟨"b", "Welt"⟩]
        [⟨"x", "Hallo"⟩, ⟨"y", "Katze"⟩] = [⟨"y", "Katze"⟩] ∧
     reportedFilteredCount [⟨"a", "Hallo"⟩, ⟨"b", "Welt"⟩]
        [⟨"x", "Hallo"⟩, ⟨"y", "Katze"⟩] = 1) := by
  refine ⟨leakageFilter_eq_filter train_data val_data, ?_,
    leakageFilter_of_no_leak, by decide, by decide⟩
  unfold reportedFilteredCount
  rw [leakageFilter_eq_filter]
  have hsplit := length_filter_add_length_filter_not
    (fun s => s.de ∈ train_data.map Record.de) val_data
  have hlen : (val_data.filter
      (fun s => decide (s.de ∉ train_data.map Record.de))).length
        ≤ val_data.length := List.length_filter_le _ _
  have hleak : (leakedSamples train_data val_data).length
      = (val_data.filter
          (fun s => decide (s.de ∈ train_data.map Record.de))).length := rfl
  rw [hleak]
  omega

/-- Witness for C4 at concrete training and validation collections. -/
theorem leakageFilter_exact_witness :
    leakageFilter [⟨"t", "A"⟩] [⟨"u", "A"⟩, ⟨"v", "B"⟩]
      = ([⟨"u", "A"⟩, ⟨"v", "B"⟩] : List Record).filter
          (fun s => decide (s.de ∉ ([⟨"t", "A"⟩] : List Record).map Record.de)) ∧
    reportedFilteredCount [⟨"t", "A"⟩] [⟨"u", "A"⟩, ⟨"v", "B"⟩]
      = (leakedSamples [⟨"t", "A"⟩] [⟨"u", "A"⟩, ⟨"v", "B"⟩]).length ∧
    (leakedSamples [⟨"t", "A"⟩] [⟨"u", "A"⟩, ⟨"v", "B"⟩] = [] →
      leakageFilter [⟨"t", "A"⟩] [⟨"u", "A"⟩, ⟨"v", "B"⟩]
        = [⟨"u", "A"⟩, ⟨"v", "B"⟩]) ∧
    (leakageFilter [⟨"a", "Hallo"⟩, ⟨"b", "Welt"⟩]
        [⟨"x", "Hallo"⟩, ⟨"y", "Katze"⟩] = [⟨"y", "Katze"⟩] ∧
     reportedFilteredCount [⟨"a", "Hallo"⟩, ⟨"b", "Welt"⟩]
        [⟨"x", "Hallo"⟩, ⟨"y", "Katze"⟩] = 1) :=
  leakageFilter_exact [⟨"t", "A"⟩] [⟨"u", "A"⟩, ⟨"v", "B"⟩]

/-- C7: the leakage filter is idempotent — filtering the already-filtered
validation collection returns it unchanged, and filtering a leak-free
validation collection is a no-op. -/
theorem leakageFilter_idempotent (train_data val_data : List Record) :
    leakageFilter train_data (leakageFilter train_data val_data)
      = leakageFilter train_data val_data ∧
    (leakedSamples train_data val_data = [] →
      leakageFilter train_data val_data = val_data) := by
  refine ⟨?_, leakageFilter_of_no_leak⟩
  apply leakageFilter_of_no_leak
  unfold leakedSamples
  apply List.filter_eq_nil_iff.mpr
  intro s hs
  have := (mem_leakageFilter hs).2
  simpa using this

/-- Witness for C7 at concrete training and validation collections. -/
theorem leakageFilter_idempotent_witness :
    leakageFilter [⟨"t", "A"⟩]
        (leakageFilter [⟨"t", "A"⟩] [⟨"u", "A"⟩, ⟨"v", "B"⟩])
      = leakageFilter [⟨"t", "A"⟩] [⟨"u", "A"⟩, ⟨"v", "B"⟩] ∧
    (leakedSamples [⟨"t", "A"⟩] [⟨"u", "A"⟩, ⟨"v", "B"⟩] = [] →
      leakageFilter [⟨"t", "A"⟩] [⟨"u", "A"⟩, ⟨"v", "B"⟩]
        = [⟨"u", "A"⟩, ⟨"v", "B"⟩]) :=
  leakageFilter_idempotent [⟨"t", "A"⟩] [⟨"u", "A"⟩, ⟨"v", "B"⟩]

/-! ## Special-id and assembly theorems -/

/-- C8 counterexample: the resolved special-token ids are not mutually
distinct for every loaded tokenizer — a tokenizer that defines
`pad_token_id = 1` and `bos_token_id = 1` keeps both, so the resolved pad
and BOS ids collide (the fallbacks of lines 114-119 apply only to ids the
tokenizer leaves undefined). -/
theorem resolveSpecialIds_not_always_distinct :
    ¬ ((resolveSpecialIds ⟨fun _ => [], some 1, some 1, some 2⟩).pad
          ≠ (resolveSpecialIds ⟨fun _ => [], some 1, some 1, some 2⟩).bos ∧
       (resolveSpecialIds ⟨fun _ => [], some 1, some 1, some 2⟩).pad
          ≠ (resolveSpecialIds ⟨fun _ => [], some 1, some 1, some 2⟩).eos ∧
       (resolveSpecialIds ⟨fun _ => [], some 1, some 1, some 2⟩).bos
          ≠ (resolveSpecialIds ⟨fun _ => [], some 1, some 1, some 2⟩).eos) := by
  intro h
  exact h.1 rfl

/-- C8 (amended): for every loaded tokenizer, each of the three
special-token ids resolves to the tokenizer's own id when that id is
defined, and to its fallback constant (PAD=3, BOS=1, EOS=2)
deterministically when it is not — independently for each of the three,
so partially-defined tokenizers are covered; and when the tokenizer
defines none of the three the resolved triple is PAD=3, BOS=1, EOS=2,
which is mutually distinct. -/
theorem resolveSpecialIds_fallback (tok : Tokenizer) :
    ((tok.pad_token_id = none → (resolveSpecialIds tok).pad = 3) ∧
     (∀ v, tok.pad_token_id = some v → (resolveSpecialIds tok).pad = v)) ∧
    ((tok.bos_token_id = none → (resolveSpecialIds tok).bos = 1) ∧
     (∀ v, tok.bos_token_id = some v → (resolveSpecialIds tok).bos = v)) ∧
    ((tok.eos_token_id = none → (resolveSpecialIds tok).eos = 2) ∧
     (∀ v, tok.eos_token_id = some v → (resolveSpecialIds tok).eos = v)) ∧
    (tok.pad_token_id = none → tok.bos_token_id = none →
      tok.eos_token_id = none →
      resolveSpecialIds tok = ⟨3, 1, 2⟩ ∧
      ((resolveSpecialIds tok).pad ≠ (resolveSpecialIds tok).bos ∧
       (resolveSpecialIds tok).pad ≠ (resolveSpecialIds tok).eos ∧
       (resolveSpecialIds tok).bos ≠ (resolveSpecialIds tok).eos)) := by
  refine ⟨⟨?_, ?_⟩, ⟨?_, ?_⟩, ⟨?_, ?_⟩, ?_⟩
  · intro h; simp [resolveSpecialIds, h]
  · intro v h; simp [resolveSpecialIds, h]
  · intro h; simp [resolveSpecialIds, h]
  · intro v h; simp [resolveSpecialIds, h]
  · intro h; simp [resolveSpecialIds, h]
  · intro v h; simp [resolveSpecialIds, h]
  · intro hp hb he
    have h : resolveSpecialIds tok = ⟨3, 1, 2⟩ := by
      simp [resolveSpecialIds, hp, hb, he]
    rw [h]
    exact ⟨rfl, by decide⟩

/-- Witness for the amended C8 at a partially-defined tokenizer (pad id
defined as 7, BOS and EOS ids undefined): the defined id is kept and the
two undefined ids get their fallbacks. -/
theorem resolveSpecialIds_fallback_witness :
    (resolveSpecialIds ⟨fun _ => [9], some 7, none, none⟩).pad = 7 ∧
    (resolveSpecialIds ⟨fun _ => [9], some 7, none, none⟩).bos = 1 ∧
    (resolveSpecialIds ⟨fun _ => [9], some 7, none, none⟩).eos = 2 :=
  ⟨(resolveSpecialIds_fallback ⟨fun _ => [9], some 7, none, none⟩).1.2 7 rfl,
   (resolveSpecialIds_fallback ⟨fun _ => [9], some 7, none, none⟩).2.1.1 rfl,
   (resolveSpecialIds_fallback ⟨fun _ => [9], some 7, none, none⟩).2.2.1.1 rfl⟩

/-- C5: whenever the tokenizer artifact file is missing,
`create_dataloaders` raises the missing-artifact error immediately —
no retry, no dataset or tokenizer is returned and no exit handler runs
(the raise at dataset.py line 106 precedes the `try` block). -/
theorem create_dataloaders_missing_tokenizer (env : Env)
    (h : env.tokenizerFileExists = false) :
    create_dataloaders env = .raised .fileNotFound := by
  unfold create_dataloaders
  simp [h]

/-- Witness for C5 at a concrete environment with a missing artifact. -/
theorem create_dataloaders_missing_tokenizer_witness :
    ({ tokenizerFileExists := false
       tokenizer := ⟨fun _ => [], none, none, none⟩
       fetchTrain := .ok []
       fetchVal := .ok []
       shuffleOrder := []
       rank := 0
       subset_size := none } : Env).tokenizerFileExists = false ∧
    create_dataloaders
      { tokenizerFileExists := false
        tokenizer := ⟨fun _ => [], none, none, none⟩
        fetchTrain := .ok []
        fetchVal := .ok []
        shuffleOrder := []
        rank := 0
        subset_size := none }
      = .raised .fileNotFound :=
  ⟨rfl,
   create_dataloaders_missing_tokenizer
     { tokenizerFileExists := false
       tokenizer := ⟨fun _ => [], none, none, none⟩
       fetchTrain := .ok []
       fetchVal := .ok []
       shuffleOrder := []
       rank := 0
       subset_size := none } rfl⟩

/-- C9 counterexample: on a non-coordinating rank a fetch failure is
caught and the process exits with status 1, but the error is **not**
logged (the print at dataset.py line 180 is gated on `rank == 0`), so the
claim that every such failure is logged fails at rank 1. -/
theorem create_dataloaders_fetch_failure_unlogged_rank1 :
    create_dataloaders
      { tokenizerFileExists := true
        tokenizer := ⟨fun _ => [], none, none, none⟩
        fetchTrain := .error "corpus source unreachable"
        fetchVal := .ok []
        shuffleOrder := []
        rank := 1
        subset_size := none }
      = .exited 1 false ∧
    RunOutcome.exited 1 false ≠ RunOutcome.exited 1 true := by
  exact ⟨rfl, by decide⟩

/-- C9 (amended): every fetch failure inside the `try` block is caught at
the assembly boundary and terminates the process with exit status 1
rather than propagating; the error is printed exactly when the process is
the coordinating rank 0. -/
theorem create_dataloaders_fetch_failure_exits (env : Env)
    (hex : env.tokenizerFileExists = true)
    (hf : (∃ e, env.fetchTrain = .error e) ∨ (∃ e, env.fetchVal = .error e)) :
    create_dataloaders env = .exited 1 (env.rank == 0) := by
  unfold create_dataloaders
  rcases hf with ⟨e, he⟩ | ⟨e, he⟩
  · simp [hex, he]
  · cases ht : env.fetchTrain with
    | error e' => simp [hex, ht]
    | ok train_data => simp [hex, ht, he]

/-- Witness for the amended C9: a fetch failure on rank 0 exits with
status 1 after logging. -/
theorem create_dataloaders_fetch_failure_exits_witness :
    ({ tokenizerFileExists := true
       tokenizer := ⟨fun _ => [], none, none, none⟩
       fetchTrain := .error "corpus source unreachable"
       fetchVal := .ok []
       shuffleOrder := []
       rank := 0
       subset_size := none } : Env).tokenizerFileExists = true ∧
    create_dataloaders
      { tokenizerFileExists := true
        tokenizer := ⟨fun _ => [], none, none, none⟩
        fetchTrain := .error "corpus source unreachable"
        fetchVal := .ok []
        shuffleOrder := []
        rank := 0
        subset_size := none }
      = .exited 1 (((0 : Nat)) == 0) :=
  ⟨rfl,
   create_dataloaders_fetch_failure_exits
     { tokenizerFileExists := true
       tokenizer := ⟨fun _ => [], none, none, none⟩
       fetchTrain := .error "corpus source unreachable"
       fetchVal := .ok []
       shuffleOrder := []
       rank := 0
       subset_size := none } rfl (.inl ⟨"corpus source unreachable", rfl⟩)⟩

/-- Every record of the subsetted training split is a record of the
original training split (`shuffle` permutes, `select` takes a prefix). -/
lemma mem_subsetTrain {env : Env} {train_data : List Record} {r : Record}
    (hr : r ∈ subsetTrain env train_data) : r ∈ train_data := by
  have hcase : subsetTrain env train_data = train_data ∨
      ∃ n, subsetTrain env train_data
        = shuffleSelect env.shuffleOrder n train_data := by
    unfold subsetTrain
    cases env.subset_size with
    | none => exact .inl rfl
    | some n =>
      by_cases hlt : n < train_data.length
      · exact .inr ⟨n, by simp [hlt]⟩
      · exact .inl (by simp [hlt])
  rcases hcase with hc | ⟨n, hc⟩
  · rw [hc] at hr; exact hr
  · rw [hc] at hr
    unfold shuffleSelect at hr
    have hmem := List.mem_of_mem_take hr
    obtain ⟨i, -, hget⟩ := List.mem_filterMap.mp hmem
    exact List.get?_mem hget

/-- C1 counterexample: on rank 1 the leakage filter of dataset.py lines
137-160 is skipped (it is gated on `rank == 0`), so the returned
validation collection still contains a record whose `de` sentence occurs
verbatim among the training `de` sentences. -/
theorem create_dataloaders_leak_survives_rank1 :
    create_dataloaders
      { tokenizerFileExists := true
        tokenizer := ⟨fun _ => [], none, none, none⟩
        fetchTrain := .ok [⟨"a cat", "Hallo"⟩]
        fetchVal := .ok [⟨"x", "Hallo"⟩]
        shuffleOrder := []
        rank := 1
        subset_size := none }
      = .ok [⟨"a cat", "Hallo"⟩] [⟨"x", "Hallo"⟩] ⟨3, 1, 2⟩ ∧
    (⟨"x", "Hallo"⟩ : Record) ∈ ([⟨"x", "Hallo"⟩] : List Record) ∧
    (⟨"x", "Hallo"⟩ : Record).de
      ∈ ([⟨"a cat", "Hallo"⟩] : List Record).map Record.de := by
  refine ⟨rfl, by decide, by decide⟩

/-- C1 (amended): on the coordinating rank 0 the returned validation
collection contains no record whose `de` sentence occurs verbatim among
the `de` sentences of the returned training collection; on non-zero ranks
the filter is skipped, so the invariant is only guaranteed on rank 0. -/
theorem create_dataloaders_no_leak_rank0 (env : Env) (hr : env.rank = 0)
    (train_out val_out : List Record) (ids : SpecialIds)
    (h : create_dataloaders env = .ok train_out val_out ids) :
    ∀ r ∈ val_out, r.de ∉ train_out.map Record.de := by
  unfold create_dataloaders at h
  cases hex : env.tokenizerFileExists with
  | false => rw [hex] at h; simp at h
  | true =>
    rw [hex] at h
    simp only [Bool.not_true, Bool.false_eq_true, if_false] at h
    cases htr : env.fetchTrain with
    | error e => rw [htr] at h; simp at h
    | ok train_data =>
      rw [htr] at h
      cases hv : env.fetchVal with
      | error e => rw [hv] at h; simp at h
      | ok val_data =>
        rw [hv, hr] at h
        have h' : subsetTrain env train_data = train_out ∧
            leakageFilter train_data val_data = val_out ∧
            resolveSpecialIds env.tokenizer = ids := by
          simpa using h
        obtain ⟨htrain, hval, -⟩ := h'
        intro r hrval hrde
        have hr1 : r ∈ leakageFilter train_data val_data := by
          rw [hval]; exact hrval
        have hnot := (mem_leakageFilter hr1).2
        apply hnot
        obtain ⟨t, ht, hde⟩ := List.mem_map.mp hrde
        have : t ∈ train_data := by
          refine @mem_subsetTrain env train_data t ?_
          rw [htrain]; exact ht
        exact List.mem_map.mpr ⟨t, this, hde⟩

/-- Witness for the amended C1: a rank-0 run on a corpus with one leaked
validation record, whose output validation collection is leak-free. -/
theorem create_dataloaders_no_leak_rank0_witness :
    decide ((⟨"y", "Katze"⟩ : Record).de
        ∈ ([⟨"a cat", "Hallo"⟩] : List Record).map Record.de) = false :=
  decide_eq_false
    (create_dataloaders_no_leak_rank0
      { tokenizerFileExists := true
        tokenizer := ⟨fun _ => [], none, none, none⟩
        fetchTrain := .ok [⟨"a cat", "Hallo"⟩]
        fetchVal := .ok [⟨"x", "Hallo"⟩, ⟨"y", "Katze"⟩]
        shuffleOrder := []
        rank := 0
        subset_size := none }
      rfl [⟨"a cat", "Hallo"⟩] [⟨"y", "Katze"⟩] ⟨3, 1, 2⟩ (by decide)
      ⟨"y", "Katze"⟩ (by decide))

/-! ## Encoder shape lemmas -/

lemma isMat_mem_length {m : Mat} {r c : Nat} (h : isMat m r c) {row : Vec}
    (hrow : row ∈ m) : row.length = c := h.2 row hrow

lemma zipWith_add_length (u v : Vec) :
    ((u.zip v).map (fun q : ℚ × ℚ => q.1 + q.2)).length = min u.length v.length := by
  simp

lemma linearMap_isMat {W : Mat} {b : Vec} {x : Mat} {T D O : Nat}
    (hW : isMat W O D) (hb : b.length = O) (hx : isMat x T D) :
    isMat (linearMap W b x) T O := by
  constructor
  · simp [linearMap, hx.1]
  · intro row hrow
    obtain ⟨xr, -, rfl⟩ := List.mem_map.mp hrow
    simp [linearRow, hW.1, hb]

lemma map_elementwise_isMat {x : Mat} {T D : Nat} (f : ℚ → ℚ)
    (hx : isMat x T D) : isMat (x.map (fun r => r.map f)) T D := by
  constructor
  · simp [hx.1]
  · intro row hrow
    obtain ⟨r, hr, rfl⟩ := List.mem_map.mp hrow
    simp [hx.2 r hr]

lemma addMat_isMat {a b : Mat} {T D : Nat} (ha : isMat a T D)
    (hb : isMat b T D) : isMat (addMat a b) T D := by
  constructor
  · simp [addMat, ha.1, hb.1]
  · intro row hrow
    obtain ⟨p, hp, rfl⟩ := List.mem_map.mp hrow
    have h1 : p.1 ∈ a := (List.of_mem_zip hp).1
    have h2 : p.2 ∈ b := (List.of_mem_zip hp).2
    simp [ha.2 p.1 h1, hb.2 p.2 h2]

lemma layerNorm_isMat {p : LayerNormParams} {x : Mat} {T D : Nat}
    (hp : lnWF p D) (hx : isMat x T D) : isMat (layerNorm p x) T D := by
  constructor
  · simp [layerNorm, hx.1]
  · intro row hrow
    obtain ⟨r, hr, rfl⟩ := List.mem_map.mp hrow
    simp [layerNormRow, hx.2 r hr, hp.1, hp.2]

lemma feedForward_isMat {p : FFParams} {x : Mat} {T D F : Nat}
    (hp : ffWF p D F) (hx : isMat x T D) : isMat (feedForward p x) T D := by
  obtain ⟨h1, h2, h3, h4⟩ := hp
  exact linearMap_isMat h3 h4
    (map_elementwise_isMat p.gelu (linearMap_isMat h1 h2 hx))

lemma softmaxRow_length (aexp : ℚ → ℚ) (r : Vec) :
    (softmaxRow aexp r).length = r.length := by
  simp [softmaxRow]

lemma attnScores_isMat {Q K : Mat} {s : ℚ} {T T' : Nat}
    (hQ : Q.length = T) (hK : K.length = T') :
    isMat (attnScores s Q K) T T' := by
  constructor
  · simp [attnScores, hQ]
  · intro row hrow
    obtain ⟨q, -, rfl⟩ := List.mem_map.mp hrow
    simp [hK]

lemma addMask_isMat {scores : Mat} {mask : Option Mat} {T : Nat}
    (hs : isMat scores T T) (hm : ∀ m, mask = some m → isMat m T T) :
    isMat (addMask scores mask) T T := by
  cases mask with
  | none => exact hs
  | some m =>
    have hm' := hm m rfl
    constructor
    · simp [addMask, hs.1, hm'.1]
    · intro row hrow
      obtain ⟨p, hp, rfl⟩ := List.mem_map.mp hrow
      have h1 : p.1 ∈ scores := (List.of_mem_zip hp).1
      have h2 : p.2 ∈ m := (List.of_mem_zip hp).2
      simp [hs.2 p.1 h1, hm'.2 p.2 h2]

lemma weightedSum_length {V : Mat} {dh : Nat} (w : Vec)
    (hV : ∀ row ∈ V, row.length = dh) :
    (weightedSum w V dh).length = dh := by
  unfold weightedSum
  have key : ∀ (l : List (ℚ × Vec)), (∀ p ∈ l, p.2.length = dh) →
      ∀ acc : Vec, acc.length = dh →
      (l.foldl (fun acc p =>
        (acc.zip (p.2.map (fun v => p.1 * v))).map (fun q => q.1 + q.2)) acc).length
        = dh := by
    intro l
    induction l with
    | nil => intro _ acc hacc; simpa using hacc
    | cons a t ih =>
      intro hl acc hacc
      refine ih (fun p hp => hl p (List.mem_cons_of_mem a hp)) _ ?_
      have ha : a.2.length = dh := hl a (List.mem_cons_self a t)
      simp [hacc, ha]
  refine key _ ?_ _ (by simp)
  intro p hp
  exact hV p.2 (List.of_mem_zip hp).2

lemma attnHead_isMat {p : MHAParams} {dh T : Nat} {mask : Option Mat}
    {Qh Kh Vh : Mat} (hQ : isMat Qh T dh) (hK : isMat Kh T dh)
    (hV : isMat Vh T dh) (hm : ∀ m, mask = some m → isMat m T T) :
    isMat (attnHead p dh mask Qh Kh Vh) T dh := by
  have hsc : isMat (addMask (attnScores p.scale Qh Kh) mask) T T :=
    addMask_isMat (attnScores_isMat hQ.1 hK.1) hm
  constructor
  · simp [attnHead, hsc.1]
  · intro row hrow
    obtain ⟨w, hw, rfl⟩ := List.mem_map.mp (by simpa [attnHead] using hrow)
    exact weightedSum_length _ hV.2

lemma sliceCols_isMat {m : Mat} {T D : Nat} (hm : isMat m T D)
    {a b : Nat} (hab : a + b ≤ D) :
    isMat (sliceCols a b m) T b := by
  constructor
  · simp [sliceCols, hm.1]
  · intro row hrow
    obtain ⟨r, hr, rfl⟩ := List.mem_map.mp hrow
    simp [hm.2 r hr]
    omega

lemma getD_row_length {m : Mat} {T D : Nat} (hm : isMat m T D) {i : Nat}
    (hi : i < T) : (m.getD i []).length = D := by
  have hi' : i < m.length := by rw [hm.1]; exact hi
  have : m.getD i [] = m[i] := by
    simp [List.getD, List.getElem?_eq_getElem hi']
  rw [this]
  exact hm.2 _ (List.getElem_mem _)

lemma sum_map_const {α : Type} (l : List α) (f : α → Nat) (c : Nat)
    (h : ∀ x ∈ l, f x = c) : (l.map f).sum = l.length * c := by
  induction l with
  | nil => simp
  | cons a t ih =>
    have ha := h a (List.mem_cons_self a t)
    have ht := ih (fun x hx => h x (List.mem_cons_of_mem a hx))
    simp [ha, ht]
    ring

lemma concatHeads_isMat {heads : List Mat} {T dh H : Nat}
    (hlen : heads.length = H) (hh : ∀ m ∈ heads, isMat m T dh) :
    isMat (concatHeads T heads) T (H * dh) := by
  constructor
  · simp [concatHeads]
  · intro row hrow
    obtain ⟨i, hi, rfl⟩ := List.mem_map.mp hrow
    have hi' : i < T := List.mem_range.mp hi
    rw [List.length_flatten, List.map_map]
    rw [← hlen]
    apply sum_map_const
    intro m hm
    exact getD_row_length (hh m hm) hi'

lemma multiHeadAttention_isMat {p : MHAParams} {D T : Nat} {x : Mat}
    {mask : Option Mat} (hp : mhaWF p D) (hx : isMat x T D)
    (hm : ∀ m, mask = some m → isMat m T T) :
    isMat (multiHeadAttention p D x mask) T D := by
  obtain ⟨hH, hdvd, hwq, hbq, hwk, hbk, hwv, hbv, hwo, hbo⟩ := hp
  have hQ : isMat (linearMap p.wq p.bq x) T D := linearMap_isMat hwq hbq hx
  have hK : isMat (linearMap p.wk p.bk x) T D := linearMap_isMat hwk hbk hx
  have hV : isMat (linearMap p.wv p.bv x) T D := linearMap_isMat hwv hbv hx
  have hdh : p.nHeads * (D / p.nHeads) = D := Nat.mul_div_cancel' hdvd
  have hslice : ∀ h < p.nHeads, h * (D / p.nHeads) + D / p.nHeads ≤ D := by
    intro h hh
    have h1 : (h + 1) * (D / p.nHeads) ≤ p.nHeads * (D / p.nHeads) :=
      Nat.mul_le_mul_right _ hh
    rw [Nat.succ_mul] at h1
    omega
  have hheads : ∀ m ∈ (List.range p.nHeads).map (fun h =>
      attnHead p (D / p.nHeads) mask
        (sliceCols (h * (D / p.nHeads)) (D / p.nHeads) (linearMap p.wq p.bq x))
        (sliceCols (h * (D / p.nHeads)) (D / p.nHeads) (linearMap p.wk p.bk x))
        (sliceCols (h * (D / p.nHeads)) (D / p.nHeads) (linearMap p.wv p.bv x))),
      isMat m T (D / p.nHeads) := by
    intro m hmem
    obtain ⟨h, hhr, rfl⟩ := List.mem_map.mp hmem
    have hlt := List.mem_range.mp hhr
    exact attnHead_isMat
      (sliceCols_isMat hQ (hslice h hlt))
      (sliceCols_isMat hK (hslice h hlt))
      (sliceCols_isMat hV (hslice h hlt)) hm
  have hconcat : isMat (concatHeads x.length
      ((List.range p.nHeads).map (fun h =>
        attnHead p (D / p.nHeads) mask
          (sliceCols (h * (D / p.nHeads)) (D / p.nHeads) (linearMap p.wq p.bq x))
          (sliceCols (h * (D / p.nHeads)) (D / p.nHeads) (linearMap p.wk p.bk x))
          (sliceCols (h * (D / p.nHeads)) (D / p.nHeads) (linearMap p.wv p.bv x)))))
      T (p.nHeads * (D / p.nHeads)) := by
    rw [hx.1]
    exact concatHeads_isMat (by simp) hheads
  rw [hdh] at hconcat
  exact linearMap_isMat hwo hbo hconcat

lemma encoderLayerForward_isMat {p : EncoderLayerParams} {D F T : Nat}
    {x : Mat} {mask : Option Mat} (hp : layerWF p D F) (hx : isMat x T D)
    (hm : ∀ m, mask = some m → isMat m T T) :
    isMat (encoderLayerForward p x mask) T D := by
  obtain ⟨hd, hattn, hff, hn1, hn2⟩ := hp
  have hao : isMat (multiHeadAttention p.attn p.d_model x mask) T D := by
    rw [hd]; exact multiHeadAttention_isMat hattn hx hm
  have hx1 : isMat (layerNorm p.norm1
      (addMat x (multiHeadAttention p.attn p.d_model x mask))) T D :=
    layerNorm_isMat hn1 (addMat_isMat hx hao)
  exact layerNorm_isMat hn2 (addMat_isMat hx1 (feedForward_isMat hff hx1))

lemma encoderForward_isTensor3 {layers : List EncoderLayerParams}
    {D F T B : Nat} {x : List Mat} {mask : Option Mat}
    (hl : ∀ l ∈ layers, layerWF l D F) (hx : isTensor3 x B T D)
    (hm : ∀ m, mask = some m → isMat m T T) :
    isTensor3 (encoderForward layers x mask) B T D := by
  induction layers generalizing x with
  | nil => exact hx
  | cons l t ih =>
    have hlwf := hl l (List.mem_cons_self l t)
    have hstep : isTensor3 (encoderLayerForwardB l x mask) B T D := by
      constructor
      · simp [encoderLayerForwardB, hx.1]
      · intro m hmem
        obtain ⟨s, hs, rfl⟩ := List.mem_map.mp hmem
        exact encoderLayerForward_isMat hlwf (hx.2 s hs) hm
    exact ih (fun l' hl' => hl l' (List.mem_cons_of_mem l hl')) hstep

/-! ## Encoder theorems -/

/-- C6: for every well-formed layer stack and every input of shape
`[B, T, D]` (with a well-shaped optional mask), `Encoder.forward`
returns a tensor of the same shape `[B, T, D]` — in particular for any
`n_layers >= 1`; and with zero layers the output equals the input
unchanged. -/
theorem encoder_forward_shape (layers : List EncoderLayerParams)
    (D F T B : Nat) (x : List Mat) (mask : Option Mat)
    (hl : ∀ l ∈ layers, layerWF l D F)
    (hx : isTensor3 x B T D)
    (hm : ∀ m, mask = some m → isMat m T T) :
    isTensor3 (encoderForward layers x mask) B T D ∧
    encoderForward [] x mask = x :=
  ⟨encoderForward_isTensor3 hl hx hm, rfl⟩

/-- Witness for C6: a concrete one-layer stack on a concrete `[1, 1, 1]`
input keeps the shape, and the zero-layer stack is the identity there. -/
theorem encoder_forward_shape_witness :
    (∀ l ∈ [toyLayer], layerWF l 1 1) ∧ isTensor3 [[[2]]] 1 1 1 ∧
    (isTensor3 (encoderForward [toyLayer] [[[2]]] none) 1 1 1 ∧
     encoderForward [] [[[2]]] none = [[[2]]]) :=
  ⟨by decide, by decide,
   encoder_forward_shape [toyLayer] 1 1 1 1 [[[2]]] none (by decide) (by decide)
     (fun m h => nomatch h)⟩

end TransformerPipeline
